import Mathlib

/-!
Shallow embedding of the CareerCompass semantic-matching and gap-scoring
engine (`core/semantic_matcher.py`, `core/job_matcher.py`,
`core/gap_analyzer.py`, `config.py`).

Neural-network cosine similarities are external to the repository (the
sentence-transformer model), so every function that consumes them is
parameterised by an abstract score oracle `sim : String → String → ℚ`;
the control flow around the oracle is translated from the Python source.
-/

namespace CareerCompass

/-! ### String helpers (Python `str.lower` and the `in` substring test) -/

/-- `hasPrefixChars pat s` : `pat` is a leading segment of `s`. -/
def hasPrefixChars : List Char → List Char → Bool
  | [], _ => true
  | _ :: _, [] => false
  | x :: xs, y :: ys => x == y && hasPrefixChars xs ys

/-- `hasInfixChars pat s` : `pat` occurs contiguously inside `s`
(the semantics of Python's `pat in s` on strings). -/
def hasInfixChars : List Char → List Char → Bool
  | pat, [] => hasPrefixChars pat []
  | pat, y :: ys => hasPrefixChars pat (y :: ys) || hasInfixChars pat ys

/-- Python substring test `a in b`. -/
def substrOf (a b : String) : Bool := hasInfixChars a.data b.data

/-- Python `str.lower()` (ASCII part, which is all the code relies on). -/
def strLower (s : String) : String := ⟨s.data.map Char.toLower⟩

/-! ### Python `round(x, d)` on exact rationals (banker's rounding) -/

/-- Round to the nearest integer, half to even (Python's `round`). -/
def roundHalfEven (q : ℚ) : ℤ :=
  if q - ⌊q⌋ < 1/2 then ⌊q⌋
  else if 1/2 < q - ⌊q⌋ then ⌊q⌋ + 1
  else if ⌊q⌋ % 2 = 0 then ⌊q⌋ else ⌊q⌋ + 1

/-- Python `round(q, d)`. -/
def roundTo (d : ℕ) (q : ℚ) : ℚ := (roundHalfEven (q * 10 ^ d) : ℚ) / 10 ^ d

theorem roundHalfEven_nonneg {q : ℚ} (h : 0 ≤ q) : 0 ≤ roundHalfEven q := by
  unfold roundHalfEven
  have hf : (0 : ℤ) ≤ ⌊q⌋ := Int.floor_nonneg.mpr h
  split_ifs <;> omega

theorem roundHalfEven_le_ceil (q : ℚ) : roundHalfEven q ≤ ⌈q⌉ := by
  unfold roundHalfEven
  have h1 : (⌊q⌋ : ℚ) ≤ q := Int.floor_le q
  have h2 : ⌊q⌋ ≤ ⌈q⌉ := Int.floor_le_ceil q
  split_ifs with hlt hgt hev
  · exact h2
  · -- q is strictly above its floor, so the ceiling is at least floor + 1
    have : (⌊q⌋ : ℚ) < q := by linarith
    have : ⌊q⌋ < ⌈q⌉ := by
      have := Int.lt_ceil.mpr this
      omega
    omega
  · exact h2
  · have : (⌊q⌋ : ℚ) < q := by nlinarith
    have : ⌊q⌋ < ⌈q⌉ := by
      have := Int.lt_ceil.mpr this
      omega
    omega

theorem roundTo_nonneg {d : ℕ} {q : ℚ} (h : 0 ≤ q) : 0 ≤ roundTo d q := by
  unfold roundTo
  have h1 : 0 ≤ roundHalfEven (q * 10 ^ d) :=
    roundHalfEven_nonneg (by positivity)
  have h2 : (0 : ℚ) ≤ (roundHalfEven (q * 10 ^ d) : ℚ) := by exact_mod_cast h1
  positivity

theorem roundTo_le_of_le {d : ℕ} {q b : ℚ} (hb : q ≤ b) (hbi : ∃ z : ℤ, (z : ℚ) = b * 10 ^ d) :
    roundTo d q ≤ b := by
  obtain ⟨z, hz⟩ := hbi
  unfold roundTo
  have hm : q * 10 ^ d ≤ (z : ℚ) := by
    rw [hz]
    have hp : (0 : ℚ) < 10 ^ d := by positivity
    nlinarith
  have hceil : ⌈q * 10 ^ d⌉ ≤ z := Int.ceil_le.mpr hm
  have hr : roundHalfEven (q * 10 ^ d) ≤ z :=
    le_trans (roundHalfEven_le_ceil _) hceil
  have hq : (roundHalfEven (q * 10 ^ d) : ℚ) ≤ (z : ℚ) := by exact_mod_cast hr
  have hp : (0 : ℚ) < 10 ^ d := by positivity
  rw [div_le_iff₀ hp]
  calc (roundHalfEven (q * 10 ^ d) : ℚ) ≤ (z : ℚ) := hq
    _ = b * 10 ^ d := hz

/-! ### `SemanticMatcher.find_best_match` (semantic_matcher.py, lines 80-96)

`torch.argmax` returns the index of the first maximal entry; `argmaxAux`
computes that index together with the maximal value. -/

/-- First-maximum index and value of a score vector (`torch.argmax`). -/
def argmaxAux : List ℚ → Option (ℕ × ℚ)
  | [] => none
  | x :: xs =>
    match argmaxAux xs with
    | none => some (0, x)
    | some (j, v) => if x < v then some (j + 1, v) else some (0, x)

/-- Return step of `find_best_match`: accept the best-scoring option
when its score clears the threshold (`best_score >= threshold`). -/
def bestOption (options : List String) (threshold : ℚ) :
    Option (ℕ × ℚ) → Option String × ℚ
  | none => (none, 0)
  | some (j, v) =>
    if threshold ≤ v then (some (options.getD j ""), v) else (none, 0)

/-- `SemanticMatcher.find_best_match`: best-scoring option if its score
clears the threshold, else no match; empty options short-circuit. -/
def find_best_match (sim : String → String → ℚ) (query : String)
    (options : List String) (threshold : ℚ) : Option String × ℚ :=
  if options = [] then (none, 0)
  else bestOption options threshold (argmaxAux (options.map (sim query)))

theorem argmaxAux_isSome {l : List ℚ} (h : l ≠ []) : (argmaxAux l).isSome := by
  cases l with
  | nil => exact absurd rfl h
  | cons x xs =>
    unfold argmaxAux
    cases argmaxAux xs with
    | none => rfl
    | some p =>
      obtain ⟨j, v⟩ := p
      by_cases hx : x < v <;> simp [hx]

theorem argmaxAux_lt_length {l : List ℚ} {j : ℕ} {v : ℚ}
    (h : argmaxAux l = some (j, v)) : j < l.length := by
  induction l generalizing j v with
  | nil => simp [argmaxAux] at h
  | cons x xs ih =>
    unfold argmaxAux at h
    cases hxs : argmaxAux xs with
    | none =>
      rw [hxs] at h
      simp only [Option.some.injEq, Prod.mk.injEq] at h
      simp only [List.length_cons]
      omega
    | some p =>
      obtain ⟨j', v'⟩ := p
      rw [hxs] at h
      by_cases hx : x < v'
      · simp only [hx, if_true, Option.some.injEq, Prod.mk.injEq] at h
        have := ih hxs
        simp only [List.length_cons]
        omega
      · simp only [hx, if_false, Option.some.injEq, Prod.mk.injEq] at h
        simp only [List.length_cons]
        omega

/-- A returned best match is always one of the supplied options. -/
theorem find_best_match_mem {sim : String → String → ℚ} {query m : String}
    {options : List String} {threshold : ℚ}
    (h : (find_best_match sim query options threshold).1 = some m) :
    m ∈ options := by
  unfold find_best_match at h
  by_cases hopt : options = []
  · rw [if_pos hopt] at h; simp at h
  · rw [if_neg hopt] at h
    cases hmax : argmaxAux (options.map (sim query)) with
    | none => rw [hmax] at h; simp [bestOption] at h
    | some p =>
      obtain ⟨j, v⟩ := p
      rw [hmax] at h
      by_cases ht : threshold ≤ v
      · simp [bestOption, ht] at h
        have hlen : j < (options.map (sim query)).length := argmaxAux_lt_length hmax
        rw [List.length_map] at hlen
        rw [List.getElem?_eq_getElem hlen] at h
        simp at h
        exact h ▸ List.getElem_mem hlen
      · simp [bestOption, ht] at h

/-- C7: find_best_match called with an empty options list returns
(no match, 0.0) for every query and threshold; the result is the same for
every similarity oracle, i.e. the embedding model is never consulted. -/
theorem find_best_match_empty_options :
    ∀ (sim : String → String → ℚ) (query : String) (threshold : ℚ),
      find_best_match sim query [] threshold = (none, 0) :=
  fun _ _ _ => rfl

/-- C5: threshold monotonicity of find_best_match — for t1 < t2, a match
returned at threshold t2 is returned unchanged (same option, same score)
at threshold t1. -/
theorem find_best_match_threshold_monotone
    (sim : String → String → ℚ) (query : String) (options : List String)
    (t1 t2 : ℚ) (m : String) (s : ℚ) (hlt : t1 < t2)
    (h : find_best_match sim query options t2 = (some m, s)) :
    find_best_match sim query options t1 = (some m, s) := by
  unfold find_best_match at h ⊢
  by_cases hopt : options = []
  · rw [if_pos hopt] at h; simp at h
  · rw [if_neg hopt] at h ⊢
    cases hmax : argmaxAux (options.map (sim query)) with
    | none => rw [hmax] at h; simp [bestOption] at h
    | some p =>
      obtain ⟨j, v⟩ := p
      rw [hmax] at h
      simp only [bestOption] at h ⊢
      by_cases ht : t2 ≤ v
      · have ht1 : t1 ≤ v := le_of_lt (lt_of_lt_of_le hlt ht)
        rw [if_pos ht] at h
        rw [if_pos ht1]
        exact h
      · rw [if_neg ht] at h
        simp at h

/-- A constant similarity oracle, used to instantiate oracle-parametric
theorems at concrete inputs. -/
def constSim (q : ℚ) : String → String → ℚ := fun _ _ => q

theorem find_best_match_threshold_monotone_witness :
    (0 : ℚ) < 1/2 ∧ find_best_match (constSim 1) "python" ["python3"] 0 = (some "python3", 1) :=
  ⟨by norm_num,
   find_best_match_threshold_monotone (constSim 1) "python" ["python3"] 0 (1/2) "python3" 1
     (by norm_num)
     (by norm_num [find_best_match, bestOption, argmaxAux, constSim])⟩

/-! ### `SemanticMatcher.batch_filter_skills` (semantic_matcher.py, lines 99-120) -/

/-- The `technical_skill` anchor phrases (`SemanticMatcher.ANCHORS`). -/
def ANCHORS_technical : List String :=
  ["software engineering skill", "programming language", "framework",
   "cloud platform", "database technology", "machine learning tool",
   "developer tool", "technical competency", "library", "api"]

/-- Per-candidate maximum cosine score over the technical anchors
(`torch.max(cosine_scores, dim=1)`). -/
def maxAnchorScore (sim : String → String → ℚ) (c : String) : ℚ :=
  match ANCHORS_technical.map (sim c) with
  | [] => 0
  | x :: xs => xs.foldl max x

/-- `SemanticMatcher.batch_filter_skills`: keep candidates whose maximum
anchor score strictly exceeds the threshold, preserving order. -/
def batch_filter_skills (sim : String → String → ℚ) (candidates : List String)
    (threshold : ℚ) : List String :=
  if candidates = [] then []
  else candidates.foldl
    (fun acc c => if threshold < maxAnchorScore sim c then acc ++ [c] else acc) []

theorem batch_filter_foldl_mem (sim : String → String → ℚ) (threshold : ℚ)
    (l : List String) (acc : List String) (x : String) :
    x ∈ l.foldl (fun acc c => if threshold < maxAnchorScore sim c then acc ++ [c] else acc) acc ↔
      x ∈ acc ∨ (x ∈ l ∧ threshold < maxAnchorScore sim x) := by
  induction l generalizing acc with
  | nil => simp
  | cons c cs ih =>
    simp only [List.foldl_cons]
    rw [ih]
    by_cases hc : threshold < maxAnchorScore sim c
    · rw [if_pos hc]
      simp only [List.mem_append, List.mem_cons, List.not_mem_nil, or_false]
      constructor
      · rintro ((hx | rfl) | hx)
        · exact Or.inl hx
        · exact Or.inr ⟨Or.inl rfl, hc⟩
        · exact Or.inr ⟨Or.inr hx.1, hx.2⟩
      · rintro (hx | ⟨(rfl | hx), hs⟩)
        · exact Or.inl (Or.inl hx)
        · exact Or.inl (Or.inr rfl)
        · exact Or.inr ⟨hx, hs⟩
    · rw [if_neg hc]
      simp only [List.mem_cons]
      constructor
      · rintro (hx | hx)
        · exact Or.inl hx
        · exact Or.inr ⟨Or.inr hx.1, hx.2⟩
      · rintro (hx | ⟨(rfl | hx), hs⟩)
        · exact Or.inl hx
        · exact absurd hs hc
        · exact Or.inr ⟨hx, hs⟩

/-- C9 (amended): batch_filter_skills applies no length test — a string
appears in the output iff it is a candidate whose maximum anchor
similarity strictly exceeds the threshold, whatever its length. -/
theorem batch_filter_mem_iff (sim : String → String → ℚ)
    (candidates : List String) (threshold : ℚ) (x : String) :
    x ∈ batch_filter_skills sim candidates threshold ↔
      x ∈ candidates ∧ threshold < maxAnchorScore sim x := by
  unfold batch_filter_skills
  by_cases hc : candidates = []
  · subst hc; simp
  · rw [if_neg hc, batch_filter_foldl_mem]
    simp

/-- C9 (counterexample): with an oracle scoring every candidate 1, the
single-character candidate "a" passes the filter at the default 0.35
threshold, so strings shorter than 2 characters are not rejected. -/
theorem batch_filter_keeps_short_string :
    batch_filter_skills (constSim 1) ["a"] (35/100) = ["a"] ∧ "a".length < 2 := by
  constructor
  · norm_num [batch_filter_skills, maxAnchorScore, ANCHORS_technical, constSim]
  · decide

/-! ### `SemanticMatcher.classify_category` / `batch_classify_categories`
(semantic_matcher.py, lines 63-77 and 123-140) -/

/-- The category anchors (`SemanticMatcher.ANCHORS['categories']`), in
declaration order. -/
def CATEGORY_ANCHORS : List (String × String) :=
  [("Programming", "software development coding java python c++ code algorithms"),
   ("Data & AI", "machine learning artificial intelligence statistics data analysis sql pandas pytorch"),
   ("Web & UI", "frontend backend react angular html css javascript user interface ux"),
   ("Cloud & DevOps", "aws azure docker kubernetes ci/cd infrastructure server linux terraform"),
   ("Soft Skills", "leadership communication management agile collaboration team problem-solving")]

/-- `SemanticMatcher.cat_keys`. -/
def cat_keys : List String := CATEGORY_ANCHORS.map Prod.fst

/-- Index of the best category for one skill (`torch.argmax` over the
cosine scores against the category anchors; first maximum wins). -/
def classifyIdx (sim : String → String → ℚ) (s : String) : ℕ :=
  match argmaxAux (CATEGORY_ANCHORS.map (fun a => sim s a.2)) with
  | none => 0
  | some (j, _) => j

/-- `SemanticMatcher.classify_category` (single skill). -/
def classify_category (sim : String → String → ℚ) (s : String) : String :=
  cat_keys.getD (classifyIdx sim s) ""

/-- `SemanticMatcher.batch_classify_categories`: start from all category
keys bound to empty lists and append each skill to its best category. -/
def batch_classify_categories (sim : String → String → ℚ)
    (skills : List String) : List (String × List String) :=
  if skills = [] then []
  else skills.foldl
    (fun acc s =>
      acc.map (fun p =>
        if p.1 = classify_category sim s then (p.1, p.2 ++ [s]) else p))
    (cat_keys.map (fun k => (k, ([] : List String))))

theorem classifyIdx_lt (sim : String → String → ℚ) (s : String) :
    classifyIdx sim s < CATEGORY_ANCHORS.length := by
  unfold classifyIdx
  cases hmax : argmaxAux (CATEGORY_ANCHORS.map (fun a => sim s a.2)) with
  | none =>
    have : (CATEGORY_ANCHORS.map (fun a => sim s a.2)) ≠ [] := by
      simp [CATEGORY_ANCHORS]
    have := argmaxAux_isSome this
    rw [hmax] at this
    simp at this
  | some p =>
    obtain ⟨j, v⟩ := p
    have := argmaxAux_lt_length hmax
    rw [List.length_map] at this
    exact this

theorem classify_category_mem (sim : String → String → ℚ) (s : String) :
    classify_category sim s ∈ cat_keys := by
  unfold classify_category
  have hlen : classifyIdx sim s < cat_keys.length := by
    have := classifyIdx_lt sim s
    simpa [cat_keys] using this
  rw [List.getD_eq_getElem?_getD, List.getElem?_eq_getElem hlen]
  simp only [Option.getD_some]
  exact List.getElem_mem hlen

/-- Unrolling the classification fold: every entry's list is extended by
exactly the skills classified to its key, in input order. -/
theorem classify_foldl_eq (sim : String → String → ℚ) (l : List String)
    (acc : List (String × List String)) :
    l.foldl
      (fun acc s =>
        acc.map (fun p =>
          if p.1 = classify_category sim s then (p.1, p.2 ++ [s]) else p)) acc =
    acc.map (fun p => (p.1, p.2 ++ l.filter (fun s => classify_category sim s == p.1))) := by
  induction l generalizing acc with
  | nil =>
    simp
  | cons s l ih =>
    simp only [List.foldl_cons]
    rw [ih]
    rw [List.map_map]
    apply List.map_congr_left
    intro p _
    by_cases hp : p.1 = classify_category sim s
    · simp only [Function.comp_apply, if_pos hp, List.filter_cons]
      have : (classify_category sim s == p.1) = true := by
        simp [hp]
      rw [this]
      simp [List.append_assoc]
    · simp only [Function.comp_apply, if_neg hp, List.filter_cons]
      have : (classify_category sim s == p.1) = false := by
        simp [beq_iff_eq]
        exact fun hh => hp hh.symm
      rw [this]
      simp

/-- C10: for a non-empty input, batch classification returns the five
fixed categories in declaration order, each holding exactly the input
skills whose first-maximal anchor is that category; every input skill
lands in exactly one category list. -/
theorem batch_classify_partition (sim : String → String → ℚ)
    (skills : List String) (hne : skills ≠ []) :
    (batch_classify_categories sim skills).map Prod.fst = cat_keys ∧
    (∀ p ∈ batch_classify_categories sim skills,
      p.2 = skills.filter (fun s => classify_category sim s == p.1)) ∧
    (∀ s ∈ skills, ∃! k : String,
      ∃ l, (k, l) ∈ batch_classify_categories sim skills ∧ s ∈ l) := by
  unfold batch_classify_categories
  rw [if_neg hne, classify_foldl_eq]
  have hout : ∀ p : String × List String,
      p ∈ (cat_keys.map (fun k => (k, ([] : List String)))).map
        (fun p => (p.1, p.2 ++ skills.filter (fun s => classify_category sim s == p.1))) →
      p = (p.1, skills.filter (fun s => classify_category sim s == p.1)) := by
    intro p hp
    simp only [List.mem_map] at hp
    obtain ⟨q, hq, rfl⟩ := hp
    obtain ⟨k, -, rfl⟩ := hq
    simp
  refine ⟨?_, ?_, ?_⟩
  · simp [List.map_map, Function.comp_def]
  · intro p hp
    have := hout p hp
    exact congrArg Prod.snd this
  · intro s hs
    refine ⟨classify_category sim s,
      ⟨⟨skills.filter (fun x => classify_category sim x == classify_category sim s),
        ?_, ?_⟩, ?_⟩⟩
    · simp only [List.mem_map]
      exact ⟨(classify_category sim s, []),
        ⟨classify_category sim s, classify_category_mem sim s, rfl⟩, by simp⟩
    · rw [List.mem_filter]
      exact ⟨hs, by simp⟩
    · intro k hk
      obtain ⟨l, hl, hsl⟩ := hk
      have hkl := hout (k, l) hl
      simp only [Prod.mk.injEq] at hkl
      rw [hkl.2] at hsl
      rw [List.mem_filter] at hsl
      have hk2 : classify_category sim s = k := by
        simpa [beq_iff_eq] using hsl.2
      exact hk2.symm

/-- Constant oracles tie every category; the tie breaks to the first
declared anchor, "Programming". -/
theorem batch_classify_partition_witness :
    ((["python"] : List String) ≠ []) ∧
    ((batch_classify_categories (constSim 1) ["python"]).map Prod.fst = cat_keys ∧
    (∀ p ∈ batch_classify_categories (constSim 1) ["python"],
      p.2 = ["python"].filter (fun s => classify_category (constSim 1) s == p.1)) ∧
    (∀ s ∈ (["python"] : List String), ∃! k : String,
      ∃ l, (k, l) ∈ batch_classify_categories (constSim 1) ["python"] ∧ s ∈ l)) :=
  ⟨by decide, batch_classify_partition (constSim 1) ["python"] (by decide)⟩

/-! ### Config (`config.py`) and the composite score of
`IntelligentJobMatcher.match_with_intelligent_insights`
(job_matcher.py, lines 228-254) -/

structure MatchingWeights where
  skills : ℚ
  experience : ℚ
  education : ℚ
  industry : ℚ

/-- `config.MATCHING_WEIGHTS`. -/
def MATCHING_WEIGHTS : MatchingWeights :=
  { skills := 0.50, experience := 0.30, education := 0.10, industry := 0.10 }

structure MatchThresholds where
  excellent : ℚ
  strong : ℚ
  good : ℚ
  fair : ℚ

/-- `config.MATCH_THRESHOLDS`. -/
def MATCH_THRESHOLDS : MatchThresholds :=
  { excellent := 0.85, strong := 0.70, good := 0.55, fair := 0.40 }

/-- The composite `final_score` of `match_with_intelligent_insights`:
only the skills and experience weights are applied. -/
def final_score (skillScore expScore : ℚ) : ℚ :=
  skillScore * MATCHING_WEIGHTS.skills + expScore * MATCHING_WEIGHTS.experience

/-- The `overall_score` field of the returned match record
(`round(final_score, 3)`). -/
def overall_score (skillScore expScore : ℚ) : ℚ :=
  roundTo 3 (final_score skillScore expScore)

/-- The `match_quality` tier of `match_with_intelligent_insights`. -/
def match_quality (score : ℚ) : String :=
  if MATCH_THRESHOLDS.excellent ≤ score then "Excellent Match"
  else if MATCH_THRESHOLDS.strong ≤ score then "Strong Match"
  else if MATCH_THRESHOLDS.good ≤ score then "Good Match"
  else if MATCH_THRESHOLDS.fair ≤ score then "Fair Match"
  else "Weak Match"

/-- Rank of a quality tier, higher is better. -/
def tierRank (quality : String) : ℕ :=
  if quality = "Excellent Match" then 4
  else if quality = "Strong Match" then 3
  else if quality = "Good Match" then 2
  else if quality = "Fair Match" then 1
  else 0

/-- C2 (counterexample): the two weights actually applied sum to 0.8, not
1.0, and perfect sub-scores yield an overall score of 0.8, not 1. -/
theorem applied_weights_sum_lt_one :
    MATCHING_WEIGHTS.skills + MATCHING_WEIGHTS.experience = 4/5 ∧
    ((4 : ℚ)/5) ≠ 1 ∧
    overall_score 1 1 = 4/5 ∧
    final_score 1 1 = 4/5 := by
  have hfs : final_score 1 1 = 4/5 := by
    norm_num [final_score, MATCHING_WEIGHTS]
  refine ⟨by norm_num [MATCHING_WEIGHTS], by norm_num, ?_, hfs⟩
  rw [overall_score, hfs]
  norm_num [roundTo, roundHalfEven]

/-- C2 (amended): the applied weights sum to 0.8; for sub-scores in
[0,1] the overall score lies in [0, 0.8] ⊆ [0,1]; equal sub-scores s
give composite 0.8·s. -/
theorem overall_score_bounds (s e : ℚ)
    (hs0 : 0 ≤ s) (hs1 : s ≤ 1) (he0 : 0 ≤ e) (he1 : e ≤ 1) :
    MATCHING_WEIGHTS.skills + MATCHING_WEIGHTS.experience = 4/5 ∧
    0 ≤ overall_score s e ∧ overall_score s e ≤ 4/5 ∧
    final_score s s = (4/5) * s := by
  have hw : MATCHING_WEIGHTS.skills = 1/2 ∧ MATCHING_WEIGHTS.experience = 3/10 := by
    norm_num [MATCHING_WEIGHTS]
  have hf0 : 0 ≤ final_score s e := by
    unfold final_score
    rw [hw.1, hw.2]
    nlinarith
  have hf1 : final_score s e ≤ 4/5 := by
    unfold final_score
    rw [hw.1, hw.2]
    nlinarith
  refine ⟨by norm_num [MATCHING_WEIGHTS], ?_, ?_, ?_⟩
  · exact roundTo_nonneg hf0
  · exact roundTo_le_of_le hf1 ⟨800, by norm_num⟩
  · unfold final_score
    rw [hw.1, hw.2]
    ring

theorem overall_score_bounds_witness :
    (0 : ℚ) ≤ 1/2 ∧ (1/2 : ℚ) ≤ 1 ∧
    (MATCHING_WEIGHTS.skills + MATCHING_WEIGHTS.experience = 4/5 ∧
     0 ≤ overall_score (1/2) (1/2) ∧ overall_score (1/2) (1/2) ≤ 4/5 ∧
     final_score (1/2) (1/2) = (4/5) * (1/2)) :=
  ⟨by norm_num, by norm_num,
   overall_score_bounds (1/2) (1/2) (by norm_num) (by norm_num) (by norm_num) (by norm_num)⟩

/-- C8: the composite is monotone in each sub-score, and the score-to-tier
mapping is monotone: a higher composite never gets a lower tier. -/
theorem composite_and_tier_monotone (s1 s2 e x y : ℚ)
    (hs : s1 ≤ s2) (hxy : x ≤ y) :
    final_score s1 e ≤ final_score s2 e ∧
    final_score e s1 ≤ final_score e s2 ∧
    tierRank (match_quality x) ≤ tierRank (match_quality y) := by
  refine ⟨?_, ?_, ?_⟩
  · unfold final_score
    have : MATCHING_WEIGHTS.skills = 1/2 := by norm_num [MATCHING_WEIGHTS]
    rw [this]
    nlinarith
  · unfold final_score
    have : MATCHING_WEIGHTS.experience = 3/10 := by norm_num [MATCHING_WEIGHTS]
    rw [this]
    nlinarith
  · have hE : tierRank "Excellent Match" = 4 := rfl
    have hS : tierRank "Strong Match" = 3 := rfl
    have hG : tierRank "Good Match" = 2 := rfl
    have hF : tierRank "Fair Match" = 1 := rfl
    have hW : tierRank "Weak Match" = 0 := rfl
    have h1 : MATCH_THRESHOLDS.excellent = 0.85 := rfl
    have h2 : MATCH_THRESHOLDS.strong = 0.70 := rfl
    have h3 : MATCH_THRESHOLDS.good = 0.55 := rfl
    have h4 : MATCH_THRESHOLDS.fair = 0.40 := rfl
    unfold match_quality
    rw [h1, h2, h3, h4]
    split_ifs <;>
      simp only [hE, hS, hG, hF, hW] <;>
      first
        | omega
        | (exfalso; push_cast at *; linarith)

theorem composite_and_tier_monotone_witness :
    ((0 : ℚ) ≤ 1 ∧ (1/2 : ℚ) ≤ 3/4) ∧
    (final_score 0 (1/4) ≤ final_score 1 (1/4) ∧
     final_score (1/4) 0 ≤ final_score (1/4) 1 ∧
     tierRank (match_quality (1/2)) ≤ tierRank (match_quality (3/4))) :=
  ⟨⟨by norm_num, by norm_num⟩,
   composite_and_tier_monotone 0 1 (1/4) (1/2) (3/4) (by norm_num) (by norm_num)⟩

/-! ### `IntelligentJobMatcher.calculate_skill_match`
(job_matcher.py, lines 78-156) -/

/-- The matching test of the required/preferred loops:
`req_skill in res_skill or res_skill in req_skill` (both lowercased). -/
def matchesRes (req res : String) : Bool :=
  substrOf req res || substrOf res req

/-- Python dict assignment `d[k] = v`: overwrite in place, else append. -/
def dictInsert (d : List (String × ℚ × String)) (k : String) (v : ℚ × String) :
    List (String × ℚ × String) :=
  if d.any (fun p => p.1 == k) then
    d.map (fun p => if p.1 == k then (k, v) else p)
  else d ++ [(k, v)]

/-- Flattening of `resume_skills` into `resume_skill_dict`: category by
category, each skill keyed by its lowercased name carrying
(proficiency, category). -/
def flattenResumeSkills (rs : List (String × List (String × ℚ))) :
    List (String × ℚ × String) :=
  rs.foldl
    (fun d cat =>
      cat.2.foldl (fun d' sd => dictInsert d' (strLower sd.1) (sd.2, cat.1)) d)
    []

/-- The required-skill loop: first matching dict entry wins; the matched
list records (skill, proficiency), the rest go to missing. -/
def matchRequired (required : List String) (dict : List (String × ℚ × String)) :
    List (String × ℚ) × List String :=
  required.foldl
    (fun acc req =>
      match dict.find? (fun p => matchesRes req p.1) with
      | some p => (acc.1 ++ [(req, p.2.1)], acc.2)
      | none => (acc.1, acc.2 ++ [req]))
    ([], [])

/-- The preferred-skill loop (names only). -/
def matchPreferred (preferred : List String) (dict : List (String × ℚ × String)) :
    List String × List String :=
  preferred.foldl
    (fun acc pref =>
      if dict.any (fun p => matchesRes pref p.1) then (acc.1 ++ [pref], acc.2)
      else (acc.1, acc.2 ++ [pref]))
    ([], [])

/-- `gap_ratio` of `_calculate_gap_severity`. -/
def gapFraction (missing total : List String) : ℚ :=
  (missing.length : ℚ) / (total.length : ℚ)

/-- `IntelligentJobMatcher._calculate_gap_severity`. -/
def gapSeverity (missing total : List String) : String :=
  if total = [] then "None"
  else if gapFraction missing total = 0 then "None - Perfect match!"
  else if gapFraction missing total ≤ 0.2 then "Minor - Easily addressable"
  else if gapFraction missing total ≤ 0.4 then "Moderate - Requires preparation"
  else if gapFraction missing total ≤ 0.6 then "Significant - Needs work"
  else "Critical - May not be suitable"

/-- The two requirement lists consumed by `calculate_skill_match`
(`job_req.get('required_skills'/'preferred_skills')`). -/
structure JobReq where
  required_skills : List String
  preferred_skills : List String

/-- The dict returned by `calculate_skill_match`. -/
structure SkillMatchResult where
  score : ℚ
  required_coverage : ℚ
  preferred_coverage : ℚ
  matched_required : List (String × ℚ)
  missing_required : List String
  matched_preferred : List String
  missing_preferred : List String
  gap_severity : String

/-- `IntelligentJobMatcher.calculate_skill_match`. -/
def calculate_skill_match (resume_skills : List (String × List (String × ℚ)))
    (job_req : JobReq) : SkillMatchResult :=
  let dict := flattenResumeSkills resume_skills
  let required := job_req.required_skills.map strLower
  let preferred := job_req.preferred_skills.map strLower
  let mr := (matchRequired required dict).1
  let missr := (matchRequired required dict).2
  let mp := (matchPreferred preferred dict).1
  let missp := (matchPreferred preferred dict).2
  let required_coverage : ℚ :=
    if required = [] then 1
    else (mr.length : ℚ) / (max required.length 1 : ℕ)
  let preferred_coverage : ℚ :=
    if preferred = [] then 1/2
    else (mp.length : ℚ) / (max preferred.length 1 : ℕ)
  let overall := required_coverage * 0.8 + preferred_coverage * 0.2
  { score := roundTo 3 overall
    required_coverage := roundTo 1 (required_coverage * 100)
    preferred_coverage := roundTo 1 (preferred_coverage * 100)
    matched_required := mr
    missing_required := missr
    matched_preferred := mp
    missing_preferred := missp
    gap_severity := gapSeverity missr required }

theorem matchRequired_foldl (dict : List (String × ℚ × String))
    (required : List String) (a1 : List (String × ℚ)) (a2 : List String) :
    required.foldl
      (fun acc req =>
        match dict.find? (fun p => matchesRes req p.1) with
        | some p => (acc.1 ++ [(req, p.2.1)], acc.2)
        | none => (acc.1, acc.2 ++ [req]))
      (a1, a2) =
    (a1 ++ required.filterMap
        (fun req => (dict.find? (fun p => matchesRes req p.1)).map (fun p => (req, p.2.1))),
     a2 ++ required.filter
        (fun req => (dict.find? (fun p => matchesRes req p.1)).isNone)) := by
  induction required generalizing a1 a2 with
  | nil => simp
  | cons req l ih =>
    simp only [List.foldl_cons]
    cases hfind : dict.find? (fun p => matchesRes req p.1) with
    | some p =>
      rw [ih]
      simp [List.filterMap_cons, List.filter_cons, hfind]
    | none =>
      rw [ih]
      simp [List.filterMap_cons, List.filter_cons, hfind]

theorem matchRequired_eq (required : List String) (dict : List (String × ℚ × String)) :
    matchRequired required dict =
    (required.filterMap
        (fun req => (dict.find? (fun p => matchesRes req p.1)).map (fun p => (req, p.2.1))),
     required.filter
        (fun req => (dict.find? (fun p => matchesRes req p.1)).isNone)) := by
  unfold matchRequired
  rw [matchRequired_foldl]
  simp

/-- Modelled from the spec (refinement comparison only): the spec's
matching rule for one required skill — an exact case-insensitive
comparison against the résumé inventory first, else a Similarity-Matcher
best match over the résumé skills at threshold 0.70. The repository's
`calculate_skill_match` does not implement this rule; this definition
exists to compare the spec's words against the code. -/
def specSkillMatched (sim : String → String → ℚ) (req : String)
    (resumeSkills : List String) : Bool :=
  resumeSkills.any (fun r => strLower r == strLower req) ||
  (find_best_match sim req resumeSkills 0.70).1.isSome

/-- C3 (amended): inside `calculate_skill_match` a required skill is
missing iff no résumé-inventory key is substring-related to it (either
direction, after lowercasing), and matched iff some key is; no semantic
similarity oracle appears anywhere in the computation. -/
theorem missing_required_iff_no_substring_match
    (rs : List (String × List (String × ℚ))) (jr : JobReq) (req : String) :
    (req ∈ (calculate_skill_match rs jr).missing_required ↔
      req ∈ jr.required_skills.map strLower ∧
        ∀ p ∈ flattenResumeSkills rs, matchesRes req p.1 = false) ∧
    (req ∈ (calculate_skill_match rs jr).matched_required.map Prod.fst ↔
      req ∈ jr.required_skills.map strLower ∧
        ∃ p ∈ flattenResumeSkills rs, matchesRes req p.1 = true) := by
  have hfields :
      (calculate_skill_match rs jr).missing_required =
        (matchRequired (jr.required_skills.map strLower) (flattenResumeSkills rs)).2 ∧
      (calculate_skill_match rs jr).matched_required =
        (matchRequired (jr.required_skills.map strLower) (flattenResumeSkills rs)).1 :=
    ⟨rfl, rfl⟩
  rw [hfields.1, hfields.2, matchRequired_eq]
  constructor
  · rw [List.mem_filter]
    constructor
    · rintro ⟨hmem, hnone⟩
      refine ⟨hmem, ?_⟩
      intro p hp
      rw [Option.isNone_iff_eq_none, List.find?_eq_none] at hnone
      have := hnone p hp
      simpa using this
    · rintro ⟨hmem, hall⟩
      refine ⟨hmem, ?_⟩
      rw [Option.isNone_iff_eq_none, List.find?_eq_none]
      intro p hp
      simp [hall p hp]
  · rw [List.mem_map]
    constructor
    · rintro ⟨⟨a, b⟩, hq, rfl⟩
      rw [List.mem_filterMap] at hq
      obtain ⟨c, hc, hfc⟩ := hq
      cases hfind : (flattenResumeSkills rs).find? (fun p => matchesRes c p.1) with
      | none => rw [hfind] at hfc; simp at hfc
      | some p =>
        rw [hfind] at hfc
        simp at hfc
        obtain ⟨rfl, -⟩ := hfc
        refine ⟨hc, p, List.mem_of_find?_eq_some hfind, ?_⟩
        have := List.find?_some hfind
        simpa using this
    · rintro ⟨hmem, p, hp, hmatch⟩
      have hsome : ((flattenResumeSkills rs).find? (fun q => matchesRes req q.1)).isSome := by
        rw [List.find?_isSome]
        exact ⟨p, hp, by simp [hmatch]⟩
      cases hfind : (flattenResumeSkills rs).find? (fun q => matchesRes req q.1) with
      | none => rw [hfind] at hsome; simp at hsome
      | some q =>
        refine ⟨(req, q.2.1), ?_, rfl⟩
        rw [List.mem_filterMap]
        exact ⟨req, hmem, by rw [hfind]; rfl⟩

/-- Inputs separating the code's substring rule from the spec's
exact-then-semantic rule: required "Go" against résumé skill "Django". -/
def resumeC : List (String × List (String × ℚ)) := [("frameworks", [("Django", 3/4)])]

def jobC : JobReq := ⟨["Go"], []⟩

/-- C3 (counterexample): the code counts "go" as matched against
"django" ("go" is a substring of "django"), while the spec's rule —
exact case-insensitive equality, else a similarity-matcher hit at
threshold 0.70 — reports no match under an oracle scoring the pair 0.
`calculate_skill_match` consults no oracle at all, so its verdict cannot
coincide with the spec's rule for every similarity oracle. -/
theorem substring_match_defies_spec :
    (calculate_skill_match resumeC jobC).matched_required = [("go", 3/4)] ∧
    (calculate_skill_match resumeC jobC).missing_required = [] ∧
    specSkillMatched (constSim 0) "go" ["django"] = false := by
  refine ⟨rfl, rfl, ?_⟩
  unfold specSkillMatched
  have h1 : (["django"] : List String).any (fun r => strLower r == strLower "go") = false := rfl
  rw [h1]
  have h2 : (find_best_match (constSim 0) "go" ["django"] 0.70).1 = none := by
    norm_num [find_best_match, bestOption, argmaxAux, constSim]
  rw [h2]
  rfl

theorem roundTo_eq_of_floor {d : ℕ} {q : ℚ} {a : ℤ}
    (hfl : ⌊q * 10 ^ d⌋ = a) (hfr : q * 10 ^ d - a < 1/2) :
    roundTo d q = (a : ℚ) / 10 ^ d := by
  unfold roundTo roundHalfEven
  rw [hfl, if_pos hfr]

/-- C1 (counterexample): with no extractable required skills the code
scores required coverage as 100% and the overall skill score as 0.9 —
the degenerate case is silently treated as fully covered, not as
coverage 0, and no low-confidence flag exists in the result record. -/
theorem calculate_skill_match_empty_required_scores_full :
    (calculate_skill_match [] ⟨[], []⟩).required_coverage = 100 ∧
    (calculate_skill_match [] ⟨[], []⟩).score = 9/10 ∧
    ((100 : ℚ) ≠ 0) := by
  refine ⟨?_, ?_, by norm_num⟩
  · have h1 : (calculate_skill_match [] ⟨[], []⟩).required_coverage =
        roundTo 1 ((1 : ℚ) * 100) := rfl
    rw [h1, show ((1 : ℚ) * 100) = 100 from by norm_num]
    rw [roundTo_eq_of_floor (a := 1000) (by rw [Int.floor_eq_iff]; norm_num) (by norm_num)]
    norm_num
  · have h2 : (calculate_skill_match [] ⟨[], []⟩).score =
        roundTo 3 ((1 : ℚ) * 0.8 + (1/2) * 0.2) := rfl
    rw [h2, show ((1 : ℚ) * 0.8 + (1/2) * 0.2) = 9/10 from by norm_num]
    rw [roundTo_eq_of_floor (a := 900) (by rw [Int.floor_eq_iff]; norm_num) (by norm_num)]
    norm_num

/-- C1 (amended): the required-coverage percentage is 100 when the
required list is empty, and `round(matched/required · 100, 1)` when it
is not (the `max(·,1)` floor coincides with the length there). -/
theorem required_coverage_formula (rs : List (String × List (String × ℚ)))
    (jr : JobReq) :
    (jr.required_skills = [] →
      (calculate_skill_match rs jr).required_coverage = 100) ∧
    (jr.required_skills ≠ [] →
      (calculate_skill_match rs jr).required_coverage =
        roundTo 1 ((((calculate_skill_match rs jr).matched_required.length : ℚ) /
          (jr.required_skills.length : ℚ)) * 100)) := by
  have h1 : (calculate_skill_match rs jr).required_coverage =
      roundTo 1 ((if jr.required_skills.map strLower = [] then (1 : ℚ)
        else (((matchRequired (jr.required_skills.map strLower)
            (flattenResumeSkills rs)).1.length : ℚ) /
          ((max (jr.required_skills.map strLower).length 1 : ℕ) : ℚ))) * 100) := rfl
  have h2 : (calculate_skill_match rs jr).matched_required =
      (matchRequired (jr.required_skills.map strLower) (flattenResumeSkills rs)).1 := rfl
  constructor
  · intro h
    have hreq : jr.required_skills.map strLower = [] := by simp [h]
    rw [h1, if_pos hreq, show ((1 : ℚ) * 100) = 100 from by norm_num]
    rw [roundTo_eq_of_floor (a := 1000) (by rw [Int.floor_eq_iff]; norm_num) (by norm_num)]
    norm_num
  · intro h
    have hreq : ¬ jr.required_skills.map strLower = [] := by simpa using h
    rw [h1, if_neg hreq, h2]
    have hlen : (jr.required_skills.map strLower).length = jr.required_skills.length :=
      List.length_map _ _
    have hpos : 1 ≤ jr.required_skills.length := by
      cases hc : jr.required_skills with
      | nil => exact absurd hc h
      | cons a l => simp
    rw [hlen, Nat.max_eq_left hpos]

theorem required_coverage_formula_witness :
    (calculate_skill_match [] ⟨[], ["python"]⟩).required_coverage = 100 :=
  (required_coverage_formula [] ⟨[], ["python"]⟩).1 rfl

/-- Scenario B inputs: required Python/Docker/Go against a résumé with
Python and Kubernetes. -/
def resumeB : List (String × List (String × ℚ)) :=
  [("languages", [("Python", 9/10), ("Kubernetes", 4/5)])]

def jobB : JobReq := ⟨["Python", "Docker", "Go"], []⟩

/-- C4 (counterexample): in Scenario B the missing ratio is 2/3 > 0.6,
so `_calculate_gap_severity` returns the "Critical" label, not the
"Significant" one the claim states. -/
theorem scenarioB_gap_severity_critical :
    (calculate_skill_match resumeB jobB).gap_severity = "Critical - May not be suitable" ∧
    "Critical - May not be suitable" ≠ "Significant - Needs work" := by
  constructor
  · have h1 : (calculate_skill_match resumeB jobB).gap_severity =
        gapSeverity ["docker", "go"] ["python", "docker", "go"] := rfl
    rw [h1]
    unfold gapSeverity
    have hr : gapFraction ["docker", "go"] ["python", "docker", "go"] = 2/3 := by
      unfold gapFraction
      norm_num
    rw [if_neg (by decide : ¬(["python", "docker", "go"] : List String) = [])]
    rw [hr]
    norm_num
  · decide

/-- C4 (amended): Scenario B yields coverage 1/3 (reported as 33.3%),
matched required ["python"], missing required ["docker","go"], and gap
severity "Critical - May not be suitable" (2/3 > 0.6). -/
theorem scenarioB_results :
    (calculate_skill_match resumeB jobB).required_coverage = 333/10 ∧
    (calculate_skill_match resumeB jobB).matched_required = [("python", 9/10)] ∧
    (calculate_skill_match resumeB jobB).missing_required = ["docker", "go"] ∧
    (calculate_skill_match resumeB jobB).gap_severity = "Critical - May not be suitable" := by
  refine ⟨?_, rfl, rfl, ?_⟩
  · have h1 : (calculate_skill_match resumeB jobB).required_coverage =
        roundTo 1 ((((1 : ℕ) : ℚ) / ((3 : ℕ) : ℚ)) * 100) := rfl
    rw [h1, show ((((1 : ℕ) : ℚ) / ((3 : ℕ) : ℚ)) * 100) = 100/3 from by norm_num]
    rw [roundTo_eq_of_floor (a := 333) (by rw [Int.floor_eq_iff]; norm_num) (by norm_num)]
    norm_num
  · have h1 : (calculate_skill_match resumeB jobB).gap_severity =
        gapSeverity ["docker", "go"] ["python", "docker", "go"] := rfl
    rw [h1]
    unfold gapSeverity
    have hr : gapFraction ["docker", "go"] ["python", "docker", "go"] = 2/3 := by
      unfold gapFraction
      norm_num
    rw [if_neg (by decide : ¬(["python", "docker", "go"] : List String) = [])]
    rw [hr]
    norm_num

/-! ### `SkillGapAnalyzer.analyze_gaps` — aggregation and semantic
clustering (gap_analyzer.py, lines 28-57) -/

/-- Distinct elements in first-occurrence order (the key order of
Python's `Counter`). -/
def firstDedup : List String → List String
  | [] => []
  | x :: xs => x :: firstDedup (xs.filter (fun y => y != x))
termination_by l => l.length
decreasing_by
  simp only [List.length_cons]
  exact Nat.lt_succ_of_le (List.length_filter_le _ _)

theorem mem_firstDedup (l : List String) (a : String) :
    a ∈ firstDedup l ↔ a ∈ l := by
  induction l using firstDedup.induct with
  | case1 => simp [firstDedup]
  | case2 x xs ih =>
    rw [firstDedup]
    simp only [List.mem_cons, ih, List.mem_filter, bne_iff_ne, ne_eq]
    by_cases hax : a = x
    · simp [hax]
    · simp [hax]

theorem nodup_firstDedup (l : List String) : (firstDedup l).Nodup := by
  induction l using firstDedup.induct with
  | case1 => simp [firstDedup]
  | case2 x xs ih =>
    rw [firstDedup]
    rw [List.nodup_cons]
    refine ⟨?_, ih⟩
    rw [mem_firstDedup, List.mem_filter]
    rintro ⟨-, hx⟩
    simp at hx

/-- `Counter(raw_missing_list).most_common()`: (skill, count) pairs,
sorted by count descending, stable (Python's sort). -/
def mostCommon (l : List String) : List (String × ℕ) :=
  ((firstDedup l).map (fun s => (s, l.count s))).mergeSort (fun a b => b.2 ≤ a.2)

theorem mostCommon_keys_nodup (l : List String) :
    ((mostCommon l).map Prod.fst).Nodup := by
  have hperm : (mostCommon l).Perm ((firstDedup l).map (fun s => (s, l.count s))) :=
    List.mergeSort_perm _ _
  have hkeys : (((firstDedup l).map (fun s => (s, l.count s))).map Prod.fst).Nodup := by
    rw [List.map_map]
    simpa [Function.comp_def] using nodup_firstDedup l
  exact ((hperm.map Prod.fst).symm.nodup hkeys : _)

theorem mostCommon_sum (l : List String) :
    ((mostCommon l).map Prod.snd).sum = l.length := by
  have hperm : (mostCommon l).Perm ((firstDedup l).map (fun s => (s, l.count s))) :=
    List.mergeSort_perm _ _
  have h1 : ((mostCommon l).map Prod.snd).sum =
      (((firstDedup l).map (fun s => (s, l.count s))).map Prod.snd).sum :=
    (hperm.map Prod.snd).sum_eq
  rw [h1, List.map_map]
  have hdperm : (firstDedup l).Perm l.dedup :=
    (List.perm_ext_iff_of_nodup (nodup_firstDedup l) l.nodup_dedup).mpr
      (fun a => by rw [mem_firstDedup, List.mem_dedup])
  have h2 : ((firstDedup l).map (fun s => l.count s)).sum =
      (l.dedup.map (fun s => l.count s)).sum :=
    (hdperm.map (fun s => l.count s)).sum_eq
  have h3 : (Prod.snd ∘ fun s => (s, l.count s)) = fun s => l.count s := rfl
  rw [h3, h2]
  exact List.sum_map_count_dedup_eq_length l

/-- One pass of the clustering loop of `analyze_gaps` (STEP 1): fold a
raw (skill, count) pair into an existing cluster found by
`find_best_match` at threshold 0.85, or open a new cluster. -/
def clusterStep (sim : String → String → ℚ) (acc : List (String × ℕ))
    (p : String × ℕ) : List (String × ℕ) :=
  match (find_best_match sim p.1 (acc.map Prod.fst) 0.85).1 with
  | some m => acc.map (fun q => if q.1 = m then (q.1, q.2 + p.2) else q)
  | none => acc ++ [p]

/-- `clustered_gaps` built by the loop of `analyze_gaps`. -/
def clusterGaps (sim : String → String → ℚ) (pairs : List (String × ℕ)) :
    List (String × ℕ) :=
  pairs.foldl (clusterStep sim) []

theorem update_keys (acc : List (String × ℕ)) (m : String) (c : ℕ) :
    ((acc.map (fun q => if q.1 = m then (q.1, q.2 + c) else q)).map Prod.fst) =
      acc.map Prod.fst := by
  rw [List.map_map]
  apply List.map_congr_left
  intro q _
  by_cases h : q.1 = m <;> simp [h]

theorem update_sum (acc : List (String × ℕ)) (m : String) (c : ℕ)
    (hnd : (acc.map Prod.fst).Nodup) (hm : m ∈ acc.map Prod.fst) :
    (((acc.map (fun q => if q.1 = m then (q.1, q.2 + c) else q)).map Prod.snd).sum) =
      (acc.map Prod.snd).sum + c := by
  induction acc with
  | nil => simp at hm
  | cons q acc ih =>
    rw [List.map_cons, List.nodup_cons] at hnd
    by_cases hq : q.1 = m
    · have hnm : m ∉ acc.map Prod.fst := hq ▸ hnd.1
      have hid : acc.map (fun r => if r.1 = m then (r.1, r.2 + c) else r) = acc := by
        have hpt : ∀ r ∈ acc, (if r.1 = m then (r.1, r.2 + c) else r) = r := by
          intro r hr
          rw [if_neg]
          intro hrm
          exact hnm (hrm ▸ List.mem_map_of_mem Prod.fst hr)
        calc acc.map (fun r => if r.1 = m then (r.1, r.2 + c) else r)
            = acc.map id := List.map_congr_left (by simpa using hpt)
          _ = acc := List.map_id acc
      simp only [List.map_cons, if_pos hq, hid, List.sum_cons]
      omega
    · have hm' : m ∈ acc.map Prod.fst := by
        rw [List.map_cons, List.mem_cons] at hm
        rcases hm with h | h
        · exact absurd h.symm hq
        · exact h
      simp only [List.map_cons, if_neg hq, List.sum_cons]
      rw [ih hnd.2 hm']
      omega

theorem clusterGaps_foldl_inv (sim : String → String → ℚ) :
    ∀ (pairs acc : List (String × ℕ)),
      (acc.map Prod.fst).Nodup →
      ((pairs.map Prod.fst).Nodup ∧ ∀ s ∈ pairs.map Prod.fst, s ∉ acc.map Prod.fst) →
      ((pairs.foldl (clusterStep sim) acc).map Prod.fst).Nodup ∧
      ((pairs.foldl (clusterStep sim) acc).map Prod.snd).sum =
        (acc.map Prod.snd).sum + (pairs.map Prod.snd).sum := by
  intro pairs
  induction pairs with
  | nil =>
    intro acc h1 _
    simpa using h1
  | cons p ps ih =>
    intro acc h1 h2
    obtain ⟨hnd2, hfresh⟩ := h2
    rw [List.map_cons, List.nodup_cons] at hnd2
    have hstep : ((clusterStep sim acc p).map Prod.fst).Nodup ∧
        ((clusterStep sim acc p).map Prod.fst = acc.map Prod.fst ∨
         (clusterStep sim acc p).map Prod.fst = acc.map Prod.fst ++ [p.1]) ∧
        ((clusterStep sim acc p).map Prod.snd).sum = (acc.map Prod.snd).sum + p.2 := by
      unfold clusterStep
      cases hfb : (find_best_match sim p.1 (acc.map Prod.fst) 0.85).1 with
      | some m =>
        have hm : m ∈ acc.map Prod.fst := find_best_match_mem hfb
        exact ⟨(update_keys acc m p.2) ▸ h1, Or.inl (update_keys acc m p.2),
          update_sum acc m p.2 h1 hm⟩
      | none =>
        have hp : p.1 ∉ acc.map Prod.fst := hfresh p.1 (by simp)
        refine ⟨?_, Or.inr (by simp), by simp⟩
        rw [List.map_append]
        rw [List.nodup_append]
        refine ⟨h1, by simp, ?_⟩
        intro a ha ha2
        have haa : a = p.1 := by simpa using ha2
        exact hp (haa ▸ ha)
    obtain ⟨hnd', hkeys', hsum'⟩ := hstep
    have hfresh' : ∀ s ∈ ps.map Prod.fst, s ∉ (clusterStep sim acc p).map Prod.fst := by
      intro s hs
      rcases hkeys' with hk | hk
      · rw [hk]
        exact hfresh s (by simp [hs])
      · rw [hk]
        intro hmem
        rcases List.mem_append.mp hmem with h | h
        · exact hfresh s (by simp [hs]) h
        · have : s = p.1 := by simpa using h
          exact hnd2.1 (this ▸ hs)
    have happly := ih (clusterStep sim acc p) hnd' ⟨hnd2.2, hfresh'⟩
    rw [List.foldl_cons]
    refine ⟨happly.1, ?_⟩
    rw [happly.2, hsum']
    simp only [List.map_cons, List.sum_cons]
    omega

/-- `raw_missing_list` of `analyze_gaps`: the concatenation of the
`missing_required` lists of the match results. -/
def rawMissing (match_results : List SkillMatchResult) : List String :=
  (match_results.map (fun m => m.missing_required)).flatten

/-- STEP 1 of `analyze_gaps`: cluster the aggregated missing-skill
counts. -/
def analyzeGapsClusters (sim : String → String → ℚ)
    (match_results : List SkillMatchResult) : List (String × ℕ) :=
  clusterGaps sim (mostCommon (rawMissing match_results))

/-- C6: cluster conservation — the cluster frequencies produced by the
clustering pass of analyze_gaps sum to the total number of raw
missing-skill mentions, for every similarity oracle and every list of
match results, and the cluster keys are pairwise distinct (each raw
mention is folded into exactly one cluster). -/
theorem gap_cluster_conservation (sim : String → String → ℚ)
    (results : List SkillMatchResult) :
    ((analyzeGapsClusters sim results).map Prod.snd).sum = (rawMissing results).length ∧
    ((analyzeGapsClusters sim results).map Prod.fst).Nodup := by
  unfold analyzeGapsClusters clusterGaps
  have hinv := clusterGaps_foldl_inv sim (mostCommon (rawMissing results)) []
    (by simp)
    ⟨mostCommon_keys_nodup _, by simp⟩
  refine ⟨?_, hinv.1⟩
  rw [hinv.2]
  simpa using mostCommon_sum (rawMissing results)

end CareerCompass
